import Mathlib

/-!
Verification of the gofer Gopher server's protocol engine.

Bytes are modelled as `Nat` (values 0-255 in practice); Rust byte buffers
(`BytesMut`, `&[u8]`) become `List Nat`. Rust `String`s are byte lists that
passed UTF-8 validation. Error enums keep their source constructors; the
`format!`ed message strings carried inside some error variants are elided
(noted at each constructor), since no property here inspects them.
-/

namespace Gofer

/-! ## types.rs: `ItemType` -/

/-- `ItemType` from src/types.rs, with the `Reserved`/`Other` byte payload as `Nat`. -/
inductive ItemType
  | File
  | Directory
  | CSO
  | Error
  | BinHex
  | DosBinary
  | Uuencoded
  | IndexSearch
  | Telnet
  | Binary
  | RedundantServer
  | Tn3270
  | Gif
  | Image
  | Document
  | HTML
  | Info
  | Audio
  | Reserved (c : Nat)
  | Other (c : Nat)
  deriving DecidableEq

/-- `ItemType::from_u8` (src/types.rs:30-60). The Rust `match` tries the named
byte arms first, then the overlapping `b'0' ..= b'Z'` arm (`Reserved`), then the
catch-all (`Other`). `b'0' = 48`, `b'Z' = 90`. -/
def ItemType.from_u8 (c : Nat) : ItemType :=
  if c = 48 then .File
  else if c = 49 then .Directory
  else if c = 50 then .CSO
  else if c = 51 then .Error
  else if c = 52 then .BinHex
  else if c = 53 then .DosBinary
  else if c = 54 then .Uuencoded
  else if c = 55 then .IndexSearch
  else if c = 56 then .Telnet
  else if c = 57 then .Binary
  else if c = 43 then .RedundantServer
  else if c = 84 then .Tn3270
  else if c = 103 then .Gif
  else if c = 73 then .Image
  else if c = 100 then .Document
  else if c = 104 then .HTML
  else if c = 105 then .Info
  else if c = 115 then .Audio
  else if 48 ≤ c ∧ c ≤ 90 then .Reserved c
  else .Other c

/-- `ItemType::into_u8` (src/types.rs:62-88). -/
def ItemType.into_u8 : ItemType → Nat
  | .File => 48
  | .Directory => 49
  | .CSO => 50
  | .Error => 51
  | .BinHex => 52
  | .DosBinary => 53
  | .Uuencoded => 54
  | .IndexSearch => 55
  | .Telnet => 56
  | .Binary => 57
  | .RedundantServer => 43
  | .Tn3270 => 84
  | .Gif => 103
  | .Image => 73
  | .Document => 100
  | .HTML => 104
  | .Info => 105
  | .Audio => 115
  | .Reserved c => c
  | .Other c => c

/-- Bytes that `from_u8` maps to a named tag inside the `'0'..'Z'` range. -/
def namedBytesInRange : List Nat := [48, 49, 50, 51, 52, 53, 54, 55, 56, 57, 84, 73]

/-- Bytes that `from_u8` maps to a named tag outside the `'0'..'Z'` range
(`'+'`, `'g'`, `'d'`, `'h'`, `'i'`, `'s'`). -/
def namedBytesOutOfRange : List Nat := [43, 103, 100, 104, 105, 115]

end Gofer

namespace Gofer

set_option maxRecDepth 4096 in
set_option maxHeartbeats 1000000 in
/-- `into_u8` recovers the exact byte that `from_u8` consumed. -/
theorem into_u8_from_u8 : ∀ c : Nat, ItemType.into_u8 (ItemType.from_u8 c) = c := by
  have hbig : ∀ c : Nat, 256 ≤ c → ItemType.from_u8 c = .Other c := by
    intro c h
    unfold ItemType.from_u8
    iterate 19 rw [if_neg (by omega)]
  intro c
  rcases Nat.lt_or_ge c 256 with h | h
  · exact (by decide : ∀ c < 256, ItemType.into_u8 (ItemType.from_u8 c) = c) c h
  · rw [hbig c h]
    rfl

set_option maxRecDepth 4096 in
set_option maxHeartbeats 1000000 in
/-- C6: the item-type byte mapping is total and byte-preserving: the 18 named
bytes map to their named tags, every other byte in `'0'..'Z'` maps to
`Reserved(byte)`, every remaining byte maps to `Other(byte)`; `into_u8`
inverts `from_u8` on the named tags, and `into_u8 (from_u8 c) = c` for every
byte `c`, so `Reserved`/`Other` preserve the exact original byte. -/
theorem item_type_byte_mapping :
    (∀ c : Nat, ItemType.into_u8 (ItemType.from_u8 c) = c)
    ∧ (ItemType.from_u8 48 = .File ∧ ItemType.from_u8 49 = .Directory
        ∧ ItemType.from_u8 50 = .CSO ∧ ItemType.from_u8 51 = .Error
        ∧ ItemType.from_u8 52 = .BinHex ∧ ItemType.from_u8 53 = .DosBinary
        ∧ ItemType.from_u8 54 = .Uuencoded ∧ ItemType.from_u8 55 = .IndexSearch
        ∧ ItemType.from_u8 56 = .Telnet ∧ ItemType.from_u8 57 = .Binary
        ∧ ItemType.from_u8 43 = .RedundantServer ∧ ItemType.from_u8 84 = .Tn3270
        ∧ ItemType.from_u8 103 = .Gif ∧ ItemType.from_u8 73 = .Image
        ∧ ItemType.from_u8 100 = .Document ∧ ItemType.from_u8 104 = .HTML
        ∧ ItemType.from_u8 105 = .Info ∧ ItemType.from_u8 115 = .Audio)
    ∧ (∀ c : Nat, 48 ≤ c → c ≤ 90 → c ∉ namedBytesInRange →
        ItemType.from_u8 c = .Reserved c)
    ∧ (∀ c : Nat, ¬(48 ≤ c ∧ c ≤ 90) → c ∉ namedBytesOutOfRange →
        ItemType.from_u8 c = .Other c)
    ∧ (ItemType.from_u8 (ItemType.into_u8 .File) = .File
        ∧ ItemType.from_u8 (ItemType.into_u8 .Directory) = .Directory
        ∧ ItemType.from_u8 (ItemType.into_u8 .CSO) = .CSO
        ∧ ItemType.from_u8 (ItemType.into_u8 .Error) = .Error
        ∧ ItemType.from_u8 (ItemType.into_u8 .BinHex) = .BinHex
        ∧ ItemType.from_u8 (ItemType.into_u8 .DosBinary) = .DosBinary
        ∧ ItemType.from_u8 (ItemType.into_u8 .Uuencoded) = .Uuencoded
        ∧ ItemType.from_u8 (ItemType.into_u8 .IndexSearch) = .IndexSearch
        ∧ ItemType.from_u8 (ItemType.into_u8 .Telnet) = .Telnet
        ∧ ItemType.from_u8 (ItemType.into_u8 .Binary) = .Binary
        ∧ ItemType.from_u8 (ItemType.into_u8 .RedundantServer) = .RedundantServer
        ∧ ItemType.from_u8 (ItemType.into_u8 .Tn3270) = .Tn3270
        ∧ ItemType.from_u8 (ItemType.into_u8 .Gif) = .Gif
        ∧ ItemType.from_u8 (ItemType.into_u8 .Image) = .Image
        ∧ ItemType.from_u8 (ItemType.into_u8 .Document) = .Document
        ∧ ItemType.from_u8 (ItemType.into_u8 .HTML) = .HTML
        ∧ ItemType.from_u8 (ItemType.into_u8 .Info) = .Info
        ∧ ItemType.from_u8 (ItemType.into_u8 .Audio) = .Audio) := by
  refine ⟨into_u8_from_u8, by decide, ?_, ?_, by decide⟩
  · intro c h1 h2 h3
    simp only [namedBytesInRange, List.mem_cons, List.not_mem_nil, or_false] at h3
    push_neg at h3
    obtain ⟨n0, n1, n2, n3, n4, n5, n6, n7, n8, n9, nT, nI⟩ := h3
    unfold ItemType.from_u8
    iterate 18 rw [if_neg (by omega)]
    rw [if_pos ⟨h1, h2⟩]
  · intro c h1 h2
    simp only [namedBytesOutOfRange, List.mem_cons, List.not_mem_nil, or_false] at h2
    push_neg at h2
    obtain ⟨nP, nG, nD, nH, nInfo, nA⟩ := h2
    unfold ItemType.from_u8
    iterate 18 rw [if_neg (by omega)]
    rw [if_neg h1]

/-- Witness for `item_type_byte_mapping` at the unmapped bytes `'A' = 65`
(inside `'0'..'Z'`) and `'a' = 97` (outside it). -/
theorem item_type_byte_mapping_witness :
    ItemType.from_u8 65 = .Reserved 65 ∧ ItemType.from_u8 97 = .Other 97 :=
  ⟨item_type_byte_mapping.2.2.1 65 (by decide) (by decide) (by decide),
   item_type_byte_mapping.2.2.2.1 97 (by decide) (by decide)⟩

/-! ## UTF-8 validity

`std::str::from_utf8` succeeds exactly on well-formed UTF-8. `validUtf8`
implements the standard byte-level acceptance table; a Rust `String` is
modelled as a byte list on which `validUtf8` holds. -/

/-- A UTF-8 continuation byte: `0x80..=0xBF`. -/
def contByte (c : Nat) : Bool := 128 ≤ c && c ≤ 191

/-- Lower bound for the first continuation byte of a 3-byte sequence. -/
def lo3 (c : Nat) : Nat := if c = 0xE0 then 0xA0 else 0x80

/-- Upper bound for the first continuation byte of a 3-byte sequence. -/
def hi3 (c : Nat) : Nat := if c = 0xED then 0x9F else 0xBF

/-- Lower bound for the first continuation byte of a 4-byte sequence. -/
def lo4 (c : Nat) : Nat := if c = 0xF0 then 0x90 else 0x80

/-- Upper bound for the first continuation byte of a 4-byte sequence. -/
def hi4 (c : Nat) : Nat := if c = 0xF4 then 0x8F else 0xBF

/-- Byte-level UTF-8 validity (the table used by Rust's `str::from_utf8`). -/
def validUtf8 : List Nat → Bool
  | [] => true
  | c :: rest =>
    if c < 0x80 then validUtf8 rest
    else if 0xC2 ≤ c && c ≤ 0xDF then
      match rest with
      | c1 :: rest1 => contByte c1 && validUtf8 rest1
      | [] => false
    else if 0xE0 ≤ c && c ≤ 0xEF then
      match rest with
      | c1 :: c2 :: rest2 =>
          (lo3 c ≤ c1 && c1 ≤ hi3 c) && contByte c2 && validUtf8 rest2
      | _ => false
    else if 0xF0 ≤ c && c ≤ 0xF4 then
      match rest with
      | c1 :: c2 :: c3 :: rest3 =>
          (lo4 c ≤ c1 && c1 ≤ hi4 c) && contByte c2 && contByte c3 && validUtf8 rest3
      | _ => false
    else false

/-! ## menu.rs: the menu-item wire codec -/

/-- `MenuItem` from src/menu.rs, fields as (UTF-8) byte lists. -/
structure MenuItem where
  typ : ItemType
  text : List Nat
  selector : List Nat
  host : Option (List Nat)
  port : Option (List Nat)
  deriving DecidableEq

/-- `MenuItemParseError` from src/menu.rs. The `Message` constructor carries a
`format!`ed string in Rust (invalid item type / extra garbage); the text is
elided here as no property inspects it. `Utf8` likewise drops the
`std::str::Utf8Error` payload. -/
inductive MenuItemParseError
  | Io
  | Utf8
  | Message
  deriving DecidableEq

instance {ε α : Type} [DecidableEq ε] [DecidableEq α] : DecidableEq (Except ε α) := fun a b =>
  match a, b with
  | .error a, .error b => decidable_of_iff (a = b) (by simp)
  | .error _, .ok _ => isFalse (by simp)
  | .ok _, .error _ => isFalse (by simp)
  | .ok a, .ok b => decidable_of_iff (a = b) (by simp)

/-- `"error.host"`, the placeholder emitted for an absent host. -/
def errorHostBytes : List Nat := [101, 114, 114, 111, 114, 46, 104, 111, 115, 116]

/-- `MenuItemEncoder::encode` (src/menu.rs:54-68): type byte, then
text TAB selector TAB host TAB port CR LF, substituting `"error.host"` / `"1"`
for an absent host / port. -/
def menuItemEncode (item : MenuItem) : List Nat :=
  [item.typ.into_u8] ++ item.text ++ [9] ++ item.selector ++ [9]
    ++ (item.host.getD errorHostBytes) ++ [9] ++ (item.port.getD [49]) ++ [13, 10]

/-- `buf.iter().position(p)`: index of the first element satisfying `p`. -/
def position (p : Nat → Bool) : List Nat → Option Nat
  | [] => none
  | c :: rest => if p c then some 0 else (position p rest).map (· + 1)

/-- `next_field` (src/menu.rs:107-119): split the buffer at the first TAB,
skipping the TAB itself; without a TAB, take the entire buffer. -/
def nextField (buf : List Nat) : List Nat × List Nat :=
  match position (fun c => c == 9) buf with
  | some idx => (buf.take idx, buf.drop (idx + 1))
  | none => (buf, [])

/-- `next_string` (src/menu.rs:121-123): a field, checked to be UTF-8. -/
def nextString (buf : List Nat) : Except MenuItemParseError (List Nat × List Nat) :=
  let (f, rest) := nextField buf
  if validUtf8 f then .ok (f, rest) else .error .Utf8

/-- The body of `MenuItemDecoder::decode` (src/menu.rs:125-196) after the line
has been isolated and its terminator stripped: an empty line is an Info item;
otherwise the first byte is the type (bytes `0 ..= 0x20` are rejected as
unprintable), then up to four TAB-separated fields follow, each omissible from
the right; a field after the port is "extra garbage". -/
def decodeMenuLine (line : List Nat) : Except MenuItemParseError MenuItem :=
  match line with
  | [] => .ok ⟨.Info, [], [], none, none⟩
  | c :: rest =>
    if c ≤ 0x20 then .error .Message
    else
      let typ := ItemType.from_u8 c
      match nextString rest with
      | .error e => .error e
      | .ok (text, rest) =>
        if rest = [] then .ok ⟨typ, text, [], none, none⟩
        else match nextString rest with
        | .error e => .error e
        | .ok (selector, rest) =>
          if rest = [] then .ok ⟨typ, text, selector, none, none⟩
          else match nextString rest with
          | .error e => .error e
          | .ok (host, rest) =>
            if rest = [] then .ok ⟨typ, text, selector, some host, none⟩
            else match nextString rest with
            | .error e => .error e
            | .ok (port, rest) =>
              if rest = [] then .ok ⟨typ, text, selector, some host, some port⟩
              else .error .Message

/-- `MenuItemDecoder::decode` (src/menu.rs:89-196): wait for a whole line (up
to the first LF), strip the trailing CRLF (or bare LF), and parse it; returns
the item together with the unconsumed buffer, or `none` when no LF is
buffered yet. -/
def menuDecode (buf : List Nat) : Except MenuItemParseError (Option (MenuItem × List Nat)) :=
  match position (fun c => c == 10) buf with
  | none => .ok none
  | some idx =>
    let line := buf.take (idx + 1)
    let rest := buf.drop (idx + 1)
    let content := if List.isSuffixOf [13, 10] line then line.dropLast.dropLast
                   else line.dropLast
    match decodeMenuLine content with
    | .ok item => .ok (some (item, rest))
    | .error e => .error e

/-! ### Helper lemmas about `position`, `nextField`, `nextString` -/

theorem position_none (p : Nat → Bool) (a : List Nat) (h : ∀ x ∈ a, p x = false) :
    position p a = none := by
  induction a with
  | nil => rfl
  | cons c rest ih =>
    rw [position, if_neg, ih fun x hx => h x (List.mem_cons_of_mem c hx)]
    · rfl
    · simp [h c (List.mem_cons_self c rest)]

theorem position_append (p : Nat → Bool) (a : List Nat) (c : Nat) (b : List Nat)
    (ha : ∀ x ∈ a, p x = false) (hc : p c = true) :
    position p (a ++ c :: b) = some a.length := by
  induction a with
  | nil => simp [position, hc]
  | cons d rest ih =>
    rw [List.cons_append, position, if_neg, ih fun x hx => ha x (List.mem_cons_of_mem d hx)]
    · rfl
    · simp [ha d (List.mem_cons_self d rest)]

theorem nextField_split (a b : List Nat) (h : 9 ∉ a) : nextField (a ++ 9 :: b) = (a, b) := by
  rw [nextField, position_append (fun c => c == 9) a 9 b ?_ (by decide)]
  · have h1 : (a ++ 9 :: b).take a.length = a := List.take_left a (9 :: b)
    have h2 : (a ++ 9 :: b).drop (a.length + 1) = b := by
      have h3 := List.drop_left (a ++ [9]) b
      simp only [List.append_assoc, List.singleton_append, List.length_append,
        List.length_singleton] at h3
      exact h3
    show ((a ++ 9 :: b).take a.length, (a ++ 9 :: b).drop (a.length + 1)) = (a, b)
    rw [h1, h2]
  · intro x hx
    simp only [beq_eq_false_iff_ne, ne_eq]
    exact fun hx9 => h (hx9 ▸ hx)

theorem nextField_whole (a : List Nat) (h : 9 ∉ a) : nextField a = (a, []) := by
  rw [nextField, position_none (fun c => c == 9) a ?_]
  intro x hx
  simp only [beq_eq_false_iff_ne, ne_eq]
  exact fun hx9 => h (hx9 ▸ hx)

theorem nextString_split (a b : List Nat) (h9 : 9 ∉ a) (hu : validUtf8 a = true) :
    nextString (a ++ 9 :: b) = .ok (a, b) := by
  rw [nextString, nextField_split a b h9]
  simp [hu]

theorem nextString_whole (a : List Nat) (h9 : 9 ∉ a) (hu : validUtf8 a = true) :
    nextString a = .ok (a, []) := by
  rw [nextString, nextField_whole a h9]
  simp [hu]

/-- Parsing a line that carries the type byte and all four fields. -/
theorem decodeMenuLine_full (c : Nat) (text sel host port : List Nat)
    (hc : 0x20 < c)
    (ht : 9 ∉ text) (hs : 9 ∉ sel) (hh : 9 ∉ host) (hp : 9 ∉ port)
    (hvt : validUtf8 text = true) (hvs : validUtf8 sel = true)
    (hvh : validUtf8 host = true) (hvp : validUtf8 port = true)
    (hpne : port ≠ []) :
    decodeMenuLine (c :: (text ++ 9 :: (sel ++ 9 :: (host ++ 9 :: port))))
      = .ok ⟨ItemType.from_u8 c, text, sel, some host, some port⟩ := by
  rw [decodeMenuLine, if_neg (by omega), nextString_split text _ ht hvt]
  simp only []
  rw [if_neg (by simp), nextString_split sel _ hs hvs]
  simp only []
  rw [if_neg (by simp), nextString_split host _ hh hvh]
  simp only []
  rw [if_neg hpne, nextString_whole port hp hvp]
  simp

/-- Feeding `menuDecode` one LF-free line plus its CRLF terminator consumes the
whole buffer and parses the line content. -/
theorem menuDecode_append_crlf (core : List Nat) (item : MenuItem)
    (h10 : 10 ∉ core) (hparse : decodeMenuLine core = .ok item) :
    menuDecode (core ++ [13, 10]) = .ok (some (item, [])) := by
  have hpos : position (fun c => c == 10) (core ++ [13, 10]) = some (core.length + 1) := by
    have h1 := position_append (fun c => c == 10) (core ++ [13]) 10 []
      (by
        intro x hx
        rcases List.mem_append.mp hx with hx | hx
        · simp only [beq_eq_false_iff_ne, ne_eq]
          exact fun h => h10 (h ▸ hx)
        · simp only [List.mem_singleton] at hx
          subst hx
          rfl)
      (by rfl)
    simp only [List.append_assoc, List.singleton_append, List.length_append,
      List.length_singleton] at h1
    exact h1
  have hlen : (core ++ [13, 10]).length = core.length + 1 + 1 := by simp
  rw [menuDecode, hpos]
  simp only []
  rw [show core.length + 1 + 1 = (core ++ [13, 10]).length from hlen.symm, List.take_length,
    List.drop_length]
  have hsuf : List.isSuffixOf [13, 10] (core ++ [13, 10]) = true := by
    simp [List.isSuffixOf, List.reverse_append, List.isPrefixOf]
  rw [if_pos hsuf]
  have hdrop : (core ++ [13, 10]).dropLast.dropLast = core := by
    rw [show core ++ [13, 10] = (core ++ [13]) ++ [10] by simp]
    rw [List.dropLast_concat, List.dropLast_concat]
  rw [hdrop, hparse]

end Gofer

namespace Gofer

/-- C8 counterexample: the type byte `' '` (0x20, a space) is none of CR, LF,
TAB, NUL, yet `MenuItemDecoder::decode` rejects the otherwise well-formed line
`" x\r\n"` instead of decoding it as an `Other(0x20)` item. -/
theorem menu_type_byte_space_rejected :
    menuDecode [32, 120, 13, 10] = .error .Message
    ∧ (32 : Nat) ≠ 13 ∧ (32 : Nat) ≠ 10 ∧ (32 : Nat) ≠ 9 ∧ (32 : Nat) ≠ 0 := by
  decide

/-- C8 (amended): menu-item decoding of a non-empty line fails on the type byte
exactly when that byte is in `0x00 ..= 0x20` (every unprintable byte, a
superset of CR, LF, TAB, NUL that also contains e.g. the space); every type
byte above `0x20` in an otherwise well-formed line decodes successfully, the
byte classified by `ItemType::from_u8`. -/
theorem menu_type_byte_check :
    (∀ (c : Nat) (rest : List Nat), c ≤ 0x20 →
        decodeMenuLine (c :: rest) = .error .Message)
    ∧ (∀ (c : Nat) (text sel host port : List Nat),
        0x20 < c →
        9 ∉ text → 9 ∉ sel → 9 ∉ host → 9 ∉ port →
        validUtf8 text = true → validUtf8 sel = true →
        validUtf8 host = true → validUtf8 port = true →
        port ≠ [] →
        decodeMenuLine (c :: (text ++ 9 :: (sel ++ 9 :: (host ++ 9 :: port))))
          = .ok ⟨ItemType.from_u8 c, text, sel, some host, some port⟩) := by
  constructor
  · intro c rest h
    rw [decodeMenuLine, if_pos h]
  · intro c text sel host port hc ht hs hh hp hvt hvs hvh hvp hpne
    exact decodeMenuLine_full c text sel host port hc ht hs hh hp hvt hvs hvh hvp hpne

/-- Witness for `menu_type_byte_check`: TAB is rejected as a type byte, and the
line `1t\ts\th\tp` decodes as a Directory item. -/
theorem menu_type_byte_check_witness :
    decodeMenuLine [9, 120] = .error .Message
    ∧ decodeMenuLine [49, 116, 9, 115, 9, 104, 9, 112]
        = .ok ⟨ItemType.from_u8 49, [116], [115], some [104], some [112]⟩ :=
  ⟨menu_type_byte_check.1 9 [120] (by decide),
   menu_type_byte_check.2 49 [116] [115] [104] [112] (by decide) (by decide) (by decide)
     (by decide) (by decide) (by decide) (by decide) (by decide) (by decide) (by decide)⟩

/-- C5 counterexample: the constructible `MenuItem` with type `Reserved('0')`
and both host and port present does not survive `decode ∘ encode`: the wire
byte `'0'` decodes back to the named tag `File`, not `Reserved('0')`. -/
theorem menu_item_roundtrip_counterexample :
    menuDecode (menuItemEncode ⟨.Reserved 48, [], [], some [104], some [112]⟩)
      = .ok (some (⟨.File, [], [], some [104], some [112]⟩, []))
    ∧ ItemType.Reserved 48 ≠ ItemType.File := by
  decide

/-- C5 (amended): the menu-item codec round-trips on its representable range:
(a) `decode (encode item) = item` for every item whose host and port are both
present, whose type survives the byte mapping (`from_u8 (into_u8 t) = t`) with
a printable wire byte (`> 0x20`), whose fields are valid UTF-8 containing no
TAB or LF, and whose port is non-empty (a trailing empty field is dropped by
the decoder); (b) `encode (decode line) = line` for every CRLF-terminated
4-field line of that shape. -/
theorem menu_item_codec_round_trip :
    (∀ (typ : ItemType) (text sel host port : List Nat),
        ItemType.from_u8 typ.into_u8 = typ → 0x20 < typ.into_u8 →
        9 ∉ text → 9 ∉ sel → 9 ∉ host → 9 ∉ port →
        10 ∉ text → 10 ∉ sel → 10 ∉ host → 10 ∉ port →
        validUtf8 text = true → validUtf8 sel = true →
        validUtf8 host = true → validUtf8 port = true →
        port ≠ [] →
        menuDecode (menuItemEncode ⟨typ, text, sel, some host, some port⟩)
          = .ok (some (⟨typ, text, sel, some host, some port⟩, [])))
    ∧ (∀ (c : Nat) (text sel host port : List Nat),
        0x20 < c →
        9 ∉ text → 9 ∉ sel → 9 ∉ host → 9 ∉ port →
        10 ∉ text → 10 ∉ sel → 10 ∉ host → 10 ∉ port →
        validUtf8 text = true → validUtf8 sel = true →
        validUtf8 host = true → validUtf8 port = true →
        port ≠ [] →
        menuDecode ((c :: (text ++ 9 :: (sel ++ 9 :: (host ++ 9 :: port)))) ++ [13, 10])
          = .ok (some (⟨ItemType.from_u8 c, text, sel, some host, some port⟩, []))
        ∧ menuItemEncode ⟨ItemType.from_u8 c, text, sel, some host, some port⟩
          = (c :: (text ++ 9 :: (sel ++ 9 :: (host ++ 9 :: port)))) ++ [13, 10]) := by
  have hcore10 : ∀ (c : Nat) (text sel host port : List Nat), 0x20 < c →
      10 ∉ text → 10 ∉ sel → 10 ∉ host → 10 ∉ port →
      (10 : Nat) ∉ (c :: (text ++ 9 :: (sel ++ 9 :: (host ++ 9 :: port)))) := by
    intro c text sel host port hc ht hs hh hp hmem
    rcases List.mem_cons.mp hmem with h | hmem
    · omega
    rcases List.mem_append.mp hmem with h | hmem
    · exact ht h
    rcases List.mem_cons.mp hmem with h | hmem
    · omega
    rcases List.mem_append.mp hmem with h | hmem
    · exact hs h
    rcases List.mem_cons.mp hmem with h | hmem
    · omega
    rcases List.mem_append.mp hmem with h | hmem
    · exact hh h
    rcases List.mem_cons.mp hmem with h | hmem
    · omega
    · exact hp hmem
  have dirB : ∀ (c : Nat) (text sel host port : List Nat),
      0x20 < c →
      9 ∉ text → 9 ∉ sel → 9 ∉ host → 9 ∉ port →
      10 ∉ text → 10 ∉ sel → 10 ∉ host → 10 ∉ port →
      validUtf8 text = true → validUtf8 sel = true →
      validUtf8 host = true → validUtf8 port = true →
      port ≠ [] →
      menuDecode ((c :: (text ++ 9 :: (sel ++ 9 :: (host ++ 9 :: port)))) ++ [13, 10])
        = .ok (some (⟨ItemType.from_u8 c, text, sel, some host, some port⟩, [])) := by
    intro c text sel host port hc h9t h9s h9h h9p h10t h10s h10h h10p hvt hvs hvh hvp hpne
    exact menuDecode_append_crlf _ _
      (hcore10 c text sel host port hc h10t h10s h10h h10p)
      (decodeMenuLine_full c text sel host port hc h9t h9s h9h h9p hvt hvs hvh hvp hpne)
  have hencode : ∀ (typ : ItemType) (text sel host port : List Nat),
      menuItemEncode ⟨typ, text, sel, some host, some port⟩
        = (typ.into_u8 :: (text ++ 9 :: (sel ++ 9 :: (host ++ 9 :: port)))) ++ [13, 10] := by
    intro typ text sel host port
    simp [menuItemEncode]
  constructor
  · intro typ text sel host port h1 h2 h9t h9s h9h h9p h10t h10s h10h h10p hvt hvs hvh hvp hpne
    rw [hencode]
    have h := dirB typ.into_u8 text sel host port h2 h9t h9s h9h h9p h10t h10s h10h h10p
      hvt hvs hvh hvp hpne
    rw [h1] at h
    exact h
  · intro c text sel host port hc h9t h9s h9h h9p h10t h10s h10h h10p hvt hvs hvh hvp hpne
    refine ⟨dirB c text sel host port hc h9t h9s h9h h9p h10t h10s h10h h10p
      hvt hvs hvh hvp hpne, ?_⟩
    rw [hencode, into_u8_from_u8]

/-- Witness for `menu_item_codec_round_trip` on the Directory item
`1text\tselector\thost\tport\r\n` from the repository's own unit test. -/
theorem menu_item_codec_round_trip_witness :
    menuDecode (menuItemEncode ⟨.Directory, [116, 101, 120, 116],
        [115, 101, 108, 101, 99, 116, 111, 114], some [104, 111, 115, 116],
        some [112, 111, 114, 116]⟩)
      = .ok (some (⟨.Directory, [116, 101, 120, 116],
          [115, 101, 108, 101, 99, 116, 111, 114], some [104, 111, 115, 116],
          some [112, 111, 114, 116]⟩, [])) :=
  menu_item_codec_round_trip.1 .Directory [116, 101, 120, 116]
    [115, 101, 108, 101, 99, 116, 111, 114] [104, 111, 115, 116] [112, 111, 114, 116]
    (by decide) (by decide) (by decide) (by decide) (by decide) (by decide) (by decide)
    (by decide) (by decide) (by decide) (by decide) (by decide) (by decide) (by decide)
    (by decide)

/-! ## request.rs: the request-line decoder -/

/-- `Request` from src/request.rs: the parsed selector (a UTF-8 string). -/
structure Request where
  selector : List Nat
  deriving DecidableEq

/-- `RequestError` from src/request.rs. `Io` carries the transport
`std::io::Error`, `Utf8` a `std::str::Utf8Error`, `InvalidSelector` a
`format!`ed message (built from the buffer and the offending offset, or
"missing CR-LF" at EOF); the payloads are elided here since no property
inspects them. -/
inductive RequestError
  | Io
  | Utf8
  | TooLong
  | InvalidSelector
  deriving DecidableEq

/-- The closure `invalid` inside `RequestDecoder::decode` (src/request.rs:66-69):
CR, LF, TAB and NUL are forbidden in a selector. -/
def invalidChar (c : Nat) : Bool := c == 13 || c == 10 || c == 9 || c == 0

/-- Result of the window scan: `Some(Ok(i))` (CRLF terminator at window `i`) or
`Some(Err(i))` (disqualifying window at `i`) in the Rust iterator chain. -/
inductive ScanHit
  | term (i : Nat)
  | bad (i : Nat)
  deriving DecidableEq

/-- The `windows(2).enumerate().filter_map(..).next()` scan of
src/request.rs:62-77, with the match arms in source order: a `[CR, LF]` window
terminates; a `[first, CR]` window disqualifies only if `first` is forbidden
(otherwise judgment on the CR is deferred to the next window); any other
window disqualifies if either byte is forbidden; otherwise scanning
continues. -/
def scanPairs : Nat → List Nat → Option ScanHit
  | i, a :: b :: rest =>
    if a == 13 && b == 10 then some (.term i)
    else if b == 13 then
      if invalidChar a then some (.bad i) else scanPairs (i + 1) (b :: rest)
    else if invalidChar a || invalidChar b then some (.bad i)
    else scanPairs (i + 1) (b :: rest)
  | _, _ => none

/-- `RequestDecoder` state (src/request.rs:26-30). `next_index` is initialised
to 0 and never written again in the source. -/
structure RequestDecoder where
  max_length : Nat
  next_index : Nat
  finished : Bool
  deriving DecidableEq

/-- `RequestDecoder::decode` (src/request.rs:46-104). Returns `none` for the
`assert!(!self.finished)` panic; otherwise the Rust
`Result<Option<Request>, RequestError>` together with the updated decoder
state and the remaining buffer. On a terminator the line is split off before
the UTF-8 check, so a non-UTF-8 line consumes the bytes but reports `Utf8`
(and, per the source, leaves `finished` unset in that case). -/
def RequestDecoder.decode (self : RequestDecoder) (buf : List Nat) :
    Option (Except RequestError (Option Request) × RequestDecoder × List Nat) :=
  if self.finished then none
  else
    let read_to := min (self.max_length + 2) buf.length
    match scanPairs 0 ((buf.take read_to).drop self.next_index) with
    | some (.term off) =>
      let newline_index := off + self.next_index
      let bytes := buf.take (newline_index + 2)
      let rest := buf.drop (newline_index + 2)
      if validUtf8 (bytes.take newline_index) then
        some (.ok (some ⟨bytes.take newline_index⟩), { self with finished := true }, rest)
      else
        some (.error .Utf8, self, rest)
    | some (.bad _) => some (.error .InvalidSelector, self, buf)
    | none =>
      if buf.length > self.max_length then
        some (.error .TooLong, { self with finished := true }, buf)
      else
        some (.ok none, self, buf)

/-- A buffer of forbidden-free bytes followed by CRLF scans to the terminator
window sitting right after those bytes. -/
theorem scanPairs_clean_append (s : List Nat) :
    ∀ i : Nat, (∀ c ∈ s, invalidChar c = false) →
      scanPairs i (s ++ [13, 10]) = some (.term (i + s.length)) := by
  induction s with
  | nil => intro i _; rfl
  | cons c stail ih =>
    intro i h
    have hc : invalidChar c = false := h c (List.mem_cons_self c stail)
    have hc13 : (c == 13) = false := by
      simp only [invalidChar, Bool.or_eq_false_iff] at hc
      exact hc.1.1.1
    cases stail with
    | nil =>
      rw [List.cons_append, List.nil_append, scanPairs]
      rw [if_neg (by simp [hc13]), if_pos (by decide), if_neg (by simp [hc])]
      rw [show scanPairs (i + 1) [13, 10] = some (.term (i + 1)) from rfl]
      rfl
    | cons d stail2 =>
      have hd : invalidChar d = false :=
        h d (List.mem_cons_of_mem c (List.mem_cons_self d stail2))
      have hd13 : (d == 13) = false := by
        simp only [invalidChar, Bool.or_eq_false_iff] at hd
        exact hd.1.1.1
      rw [List.cons_append, List.cons_append, scanPairs]
      rw [if_neg (by simp [hc13]), if_neg (by simp [hd13]), if_neg (by simp [hc, hd])]
      rw [← List.cons_append]
      have h2 := ih (i + 1) fun x hx => h x (List.mem_cons_of_mem c hx)
      rw [h2]
      simp only [List.length_cons]
      congr 2
      omega

/-- Declarative marker: the first CRLF window of the buffer sits at index `t`
(used to state what "the first CRLF terminator" means, independently of the
scan). -/
def termAtB (l : List Nat) (t : Nat) : Bool :=
  (l.get? t == some 13) && (l.get? (t + 1) == some 10)

/-- No CRLF window occurs at any index below `t`. -/
def noTermBeforeB (l : List Nat) (t : Nat) : Bool :=
  (List.range t).all fun j => !(termAtB l j)

/-- Declarative marker: a forbidden occurrence at index `p` — an LF, TAB or
NUL byte, or a CR that is not immediately followed by an LF. -/
def forbOccB (l : List Nat) (p : Nat) : Bool :=
  match l.get? p with
  | some c => (c == 10 || c == 9 || c == 0) || (c == 13 && !(l.get? (p + 1) == some 10))
  | none => false

theorem termAtB_cons_succ (a : Nat) (l : List Nat) (t : Nat) :
    termAtB (a :: l) (t + 1) = termAtB l t := by
  simp [termAtB]

theorem forbOccB_cons_succ (a : Nat) (l : List Nat) (p : Nat) :
    forbOccB (a :: l) (p + 1) = forbOccB l p := by
  simp [forbOccB]

theorem noTermBeforeB_cons (a : Nat) (l : List Nat) (t : Nat)
    (h : noTermBeforeB (a :: l) (t + 1) = true) : noTermBeforeB l t = true := by
  simp only [noTermBeforeB, List.all_eq_true, List.mem_range] at h ⊢
  intro j hj
  have h2 := h (j + 1) (by omega)
  rwa [termAtB_cons_succ] at h2

/-- If a forbidden occurrence precedes the first CRLF window, the window scan
reports a disqualifying window (never the terminator, never "keep reading"). -/
theorem scanPairs_bad_of_forbidden :
    ∀ (l : List Nat) (i p t : Nat),
      termAtB l t = true → noTermBeforeB l t = true →
      forbOccB l p = true → p < t →
      ∃ q, scanPairs i l = some (.bad q) := by
  intro l
  induction l with
  | nil =>
    intro i p t ht _ _ _
    simp [termAtB] at ht
  | cons a l1 ih =>
    intro i p t ht hbefore hforb hpt
    cases l1 with
    | nil =>
      exfalso
      cases t with
      | zero => omega
      | succ t2 =>
        rw [termAtB_cons_succ] at ht
        simp [termAtB] at ht
    | cons b l2 =>
      by_cases hab : (a == 13 && b == 10) = true
      · exfalso
        have hterm0 : termAtB (a :: b :: l2) 0 = true := by
          simp only [Bool.and_eq_true, beq_iff_eq] at hab
          simp [termAtB, hab.1, hab.2]
        cases t with
        | zero => omega
        | succ t2 =>
          simp only [noTermBeforeB, List.all_eq_true, List.mem_range] at hbefore
          have h0 := hbefore 0 (by omega)
          rw [hterm0] at h0
          simp at h0
      · have ht0 : t ≠ 0 := by
          intro h0
          omega
        -- In every remaining branch the head byte being forbidden-free forces
        -- the forbidden occurrence (and the terminator) strictly to the right.
        by_cases hb13 : (b == 13) = true
        · by_cases hia : invalidChar a = true
          · exact ⟨i, by rw [scanPairs, if_neg (by simpa using hab), if_pos hb13, if_pos hia]⟩
          · have hiaf : invalidChar a = false := by simpa using hia
            have hane : a ≠ 13 ∧ a ≠ 10 ∧ a ≠ 9 ∧ a ≠ 0 := by
              simp only [invalidChar, Bool.or_eq_false_iff, beq_eq_false_iff_ne, ne_eq] at hiaf
              exact ⟨hiaf.1.1.1, hiaf.1.1.2, hiaf.1.2, hiaf.2⟩
            have hp0 : p ≠ 0 := by
              intro h0
              subst h0
              simp only [forbOccB, List.get?_cons_zero, List.get?_cons_succ] at hforb
              rcases Bool.or_eq_true_iff.mp hforb with h | h
              · simp only [Bool.or_eq_true_iff, beq_iff_eq] at h
                rcases h with (h | h) | h <;> [exact hane.2.1 h; exact hane.2.2.1 h;
                  exact hane.2.2.2 h]
              · simp only [Bool.and_eq_true, beq_iff_eq] at h
                exact hane.1 h.1
            obtain ⟨p2, rfl⟩ := Nat.exists_eq_succ_of_ne_zero hp0
            obtain ⟨t2, rfl⟩ := Nat.exists_eq_succ_of_ne_zero ht0
            rw [termAtB_cons_succ] at ht
            rw [forbOccB_cons_succ] at hforb
            obtain ⟨q, hq⟩ := ih (i + 1) p2 t2 ht (noTermBeforeB_cons a _ t2 hbefore)
              hforb (by omega)
            exact ⟨q, by rw [scanPairs, if_neg (by simpa using hab), if_pos hb13,
              if_neg (by simp [hiaf]), hq]⟩
        · by_cases hinv : (invalidChar a || invalidChar b) = true
          · exact ⟨i, by rw [scanPairs, if_neg (by simpa using hab), if_neg hb13, if_pos hinv]⟩
          · have hinv2 : (invalidChar a || invalidChar b) = false := by simpa using hinv
            have hinvf : invalidChar a = false ∧ invalidChar b = false :=
              Bool.or_eq_false_iff.mp hinv2
            have hane : a ≠ 13 ∧ a ≠ 10 ∧ a ≠ 9 ∧ a ≠ 0 := by
              have h := hinvf.1
              simp only [invalidChar, Bool.or_eq_false_iff, beq_eq_false_iff_ne, ne_eq] at h
              exact ⟨h.1.1.1, h.1.1.2, h.1.2, h.2⟩
            have hp0 : p ≠ 0 := by
              intro h0
              subst h0
              simp only [forbOccB, List.get?_cons_zero, List.get?_cons_succ] at hforb
              rcases Bool.or_eq_true_iff.mp hforb with h | h
              · simp only [Bool.or_eq_true_iff, beq_iff_eq] at h
                rcases h with (h | h) | h <;> [exact hane.2.1 h; exact hane.2.2.1 h;
                  exact hane.2.2.2 h]
              · simp only [Bool.and_eq_true, beq_iff_eq] at h
                exact hane.1 h.1
            obtain ⟨p2, rfl⟩ := Nat.exists_eq_succ_of_ne_zero hp0
            obtain ⟨t2, rfl⟩ := Nat.exists_eq_succ_of_ne_zero ht0
            rw [termAtB_cons_succ] at ht
            rw [forbOccB_cons_succ] at hforb
            obtain ⟨q, hq⟩ := ih (i + 1) p2 t2 ht (noTermBeforeB_cons a _ t2 hbefore)
              hforb (by omega)
            exact ⟨q, by rw [scanPairs, if_neg (by simpa using hab), if_neg hb13,
              if_neg hinv, hq]⟩

end Gofer

namespace Gofer

/-- C2 counterexample: the single byte `0x80` is free of CR, LF, TAB and NUL
and far shorter than the default maximum of 1024, yet decoding `0x80 CR LF`
returns the `Utf8` error (after consuming the whole buffer), not
`Request{selector = [0x80]}` — the claim omits the UTF-8 requirement. -/
theorem request_decode_non_utf8_counterexample :
    RequestDecoder.decode ⟨1024, 0, false⟩ [128, 13, 10]
      = some (.error .Utf8, ⟨1024, 0, false⟩, [])
    ∧ invalidChar 128 = false ∧ validUtf8 [128] = false
    ∧ ([128] : List Nat).length ≤ 1024 := by
  refine ⟨?_, by decide, by decide, by decide⟩
  rfl

/-- C2 (amended): for every byte sequence `s` free of CR, LF, TAB and NUL
that is *valid UTF-8* and no longer than the configured maximum, decoding the
buffer `s ++ CR LF` consumes exactly `len + 2` bytes (nothing remains) and
yields `Request{selector = s}`. -/
theorem request_decode_clean_line (maxLen : Nat) (s : List Nat)
    (hclean : ∀ c ∈ s, invalidChar c = false)
    (hutf : validUtf8 s = true)
    (hlen : s.length ≤ maxLen) :
    RequestDecoder.decode ⟨maxLen, 0, false⟩ (s ++ [13, 10])
      = some (.ok (some ⟨s⟩), ⟨maxLen, 0, true⟩, []) := by
  have hlen2 : (s ++ [13, 10]).length = s.length + 2 := by simp
  have hmin : min (maxLen + 2) (s ++ [13, 10]).length = (s ++ [13, 10]).length := by
    rw [hlen2]; omega
  have htake : (s ++ [13, 10]).take (min (maxLen + 2) (s ++ [13, 10]).length)
      = s ++ [13, 10] := by
    rw [hmin, List.take_length]
  have hscan : scanPairs 0 (((s ++ [13, 10]).take (min (maxLen + 2)
      (s ++ [13, 10]).length)).drop 0) = some (.term s.length) := by
    rw [htake, List.drop_zero]
    have h := scanPairs_clean_append s 0 hclean
    simpa using h
  have htake2 : List.take (s.length + 2) (s ++ [13, 10]) = s ++ [13, 10] := by
    rw [← hlen2]
    exact List.take_length _
  have hdrop2 : List.drop (s.length + 2) (s ++ [13, 10]) = [] := by
    rw [← hlen2]
    exact List.drop_length _
  simp only [RequestDecoder.decode]
  rw [if_neg (by simp), hscan]
  simp only [Nat.add_zero]
  rw [htake2, List.take_left s [13, 10], if_pos hutf, hdrop2]

/-- Witness for `request_decode_clean_line`: the selector `"foo"` from the
repository's `full_line` unit test, at the default maximum length. -/
theorem request_decode_clean_line_witness :
    RequestDecoder.decode ⟨1024, 0, false⟩ ([102, 111, 111] ++ [13, 10])
      = some (.ok (some ⟨[102, 111, 111]⟩), ⟨1024, 0, true⟩, []) :=
  request_decode_clean_line 1024 [102, 111, 111] (by decide) (by decide) (by decide)

/-- C3 counterexample: a buffer of four NUL bytes exceeds a configured maximum
of 2 and contains no CRLF terminator anywhere, yet decode reports
`InvalidSelector` (the forbidden-byte window wins), not `TooLong`. -/
theorem request_too_long_counterexample :
    RequestDecoder.decode ⟨2, 0, false⟩ [0, 0, 0, 0]
      = some (.error .InvalidSelector, ⟨2, 0, false⟩, [0, 0, 0, 0])
    ∧ ([0, 0, 0, 0] : List Nat).length > 2
    ∧ noTermBeforeB [0, 0, 0, 0] 4 = true
    ∧ RequestError.InvalidSelector ≠ RequestError.TooLong := by
  refine ⟨?_, by decide, by decide, by decide⟩
  rfl

/-- C3 (amended): when the buffered input exceeds the configured maximum and
the scanned window prefix (the first `min(max+2, len)` bytes) contains neither
a CRLF terminator nor a disqualifying window, decode returns `TooLong` and
marks the decoder finished (an input whose scanned prefix contains a forbidden
byte fails with `InvalidSelector` instead); the failure is permanent: any
invocation of a finished decoder is the `assert!` panic (modelled `none`), so
no `Request` is ever produced afterwards. -/
theorem request_decode_too_long_permanent :
    (∀ (maxLen : Nat) (buf : List Nat),
        scanPairs 0 (buf.take (min (maxLen + 2) buf.length)) = none →
        buf.length > maxLen →
        RequestDecoder.decode ⟨maxLen, 0, false⟩ buf
          = some (.error .TooLong, ⟨maxLen, 0, true⟩, buf))
    ∧ (∀ (st : RequestDecoder) (buf : List Nat), st.finished = true →
        RequestDecoder.decode st buf = none) := by
  constructor
  · intro maxLen buf hscan hlen
    simp only [RequestDecoder.decode]
    rw [if_neg (by simp), List.drop_zero, hscan, if_pos hlen]
  · intro st buf hfin
    simp only [RequestDecoder.decode]
    rw [if_pos hfin]

/-- Witness for `request_decode_too_long_permanent`: four `'a'` bytes against
a maximum of 2 yield `TooLong`, and the finished decoder then panics
(produces nothing) on any further input. -/
theorem request_decode_too_long_permanent_witness :
    RequestDecoder.decode ⟨2, 0, false⟩ [97, 97, 97, 97]
      = some (.error .TooLong, ⟨2, 0, true⟩, [97, 97, 97, 97])
    ∧ RequestDecoder.decode ⟨2, 0, true⟩ [97, 97, 13, 10] = none :=
  ⟨request_decode_too_long_permanent.1 2 [97, 97, 97, 97] (by decide) (by decide),
   request_decode_too_long_permanent.2 ⟨2, 0, true⟩ [97, 97, 13, 10] rfl⟩

/-- C4 counterexample: with a configured maximum of 2, the buffer
`aaaa NUL CR LF` has a forbidden NUL at index 4 strictly before its first
CRLF terminator (index 5), yet decode fails with `TooLong`, not
`InvalidSelector` — the disqualifying window lies beyond the scanned prefix
of `max+2` bytes. -/
theorem request_decode_forbidden_counterexample :
    RequestDecoder.decode ⟨2, 0, false⟩ [97, 97, 97, 97, 0, 13, 10]
      = some (.error .TooLong, ⟨2, 0, true⟩, [97, 97, 97, 97, 0, 13, 10])
    ∧ forbOccB [97, 97, 97, 97, 0, 13, 10] 4 = true
    ∧ termAtB [97, 97, 97, 97, 0, 13, 10] 5 = true
    ∧ noTermBeforeB [97, 97, 97, 97, 0, 13, 10] 5 = true
    ∧ RequestError.TooLong ≠ RequestError.InvalidSelector := by
  refine ⟨?_, by decide, by decide, by decide, by decide⟩
  rfl

/-- C4 (amended): whenever a forbidden occurrence (LF, TAB, NUL, or a CR not
immediately followed by LF) precedes the first CRLF terminator *within the
scanned prefix* (the first `min(max+2, len)` buffered bytes), decode fails
with `InvalidSelector`, leaving the buffer untouched — no (truncated) Request
is produced; the scan classifies overlapping 2-byte windows in order, so the
lowest-offset disqualifying window decides. -/
theorem request_decode_forbidden_before_crlf (maxLen : Nat) (buf : List Nat) (p t : Nat)
    (ht : termAtB (buf.take (min (maxLen + 2) buf.length)) t = true)
    (hb : noTermBeforeB (buf.take (min (maxLen + 2) buf.length)) t = true)
    (hf : forbOccB (buf.take (min (maxLen + 2) buf.length)) p = true)
    (hpt : p < t) :
    RequestDecoder.decode ⟨maxLen, 0, false⟩ buf
      = some (.error .InvalidSelector, ⟨maxLen, 0, false⟩, buf) := by
  obtain ⟨q, hq⟩ := scanPairs_bad_of_forbidden
    (buf.take (min (maxLen + 2) buf.length)) 0 p t ht hb hf hpt
  simp only [RequestDecoder.decode]
  rw [if_neg (by simp), List.drop_zero, hq]

/-- Witness for `request_decode_forbidden_before_crlf`: a NUL at index 0
before the CRLF at index 1, at the default maximum length. -/
theorem request_decode_forbidden_before_crlf_witness :
    RequestDecoder.decode ⟨1024, 0, false⟩ [0, 13, 10]
      = some (.error .InvalidSelector, ⟨1024, 0, false⟩, [0, 13, 10]) :=
  request_decode_forbidden_before_crlf 1024 [0, 13, 10] 0 1
    (by decide) (by decide) (by decide) (by decide)

/-! ## bounded_futures_unordered.rs: the admission queue

`futures::stream::FuturesUnordered` stores the pending futures as a linked
list with the newest at the head (noted in the source comment at
src/bounded_futures_unordered.rs:27-29); it is modelled as a `List` with the
newest element first. `FuturesUnordered::push` prepends, and `into_iter`
yields the elements in that newest-first order. -/

/-- `FuturesUnordered::push`: the new future becomes the head. -/
def futuresUnorderedPush (item : α) (pending : List α) : List α := item :: pending

/-- `BoundedFuturesUnordered` (src/bounded_futures_unordered.rs:7-14). -/
structure BoundedFuturesUnordered (α : Type) where
  pending : List α
  max : Nat
  deriving DecidableEq

/-- `BoundedFuturesUnordered::push` (src/bounded_futures_unordered.rs:24-39):
at capacity, the pending set is drained (`into_iter`, newest first), reversed
(oldest first), the first — oldest — element is skipped, and the rest are
re-pushed in order before the new item is pushed. -/
def BoundedFuturesUnordered.push (self : BoundedFuturesUnordered α) (item : α) :
    BoundedFuturesUnordered α :=
  let pending :=
    if self.pending.length = self.max then
      (self.pending.reverse.drop 1).foldl (fun acc f => futuresUnorderedPush f acc) []
    else self.pending
  { self with pending := futuresUnorderedPush item pending }

/-- A sequence of admissions (`push` per accepted connection, in order). -/
def BoundedFuturesUnordered.pushAll (self : BoundedFuturesUnordered α) (xs : List α) :
    BoundedFuturesUnordered α :=
  xs.foldl (fun s x => s.push x) self

/-- `push`, additionally recording the element dropped by `.rev().skip(1)`
(the head of the reversed pending list, i.e. the oldest entry) whenever the
queue is at capacity. -/
def pushTraceStep (s : BoundedFuturesUnordered α × List α) (x : α) :
    BoundedFuturesUnordered α × List α :=
  (s.1.push x,
    s.2 ++ (if s.1.pending.length = s.1.max then s.1.pending.reverse.take 1 else []))

/-- A sequence of admissions together with the evicted elements, in eviction
order. -/
def BoundedFuturesUnordered.pushAllTrace (st : BoundedFuturesUnordered α × List α)
    (xs : List α) : BoundedFuturesUnordered α × List α :=
  xs.foldl pushTraceStep st

theorem foldl_futuresUnorderedPush (l : List α) :
    ∀ acc : List α, l.foldl (fun acc f => futuresUnorderedPush f acc) acc
      = l.reverse ++ acc := by
  induction l with
  | nil => intro acc; simp
  | cons x l ih =>
    intro acc
    rw [List.foldl_cons, ih (futuresUnorderedPush x acc)]
    simp [futuresUnorderedPush]

/-- The queue reached by admitting the prefix `p` (newest first, capped at
`K`), paired with the evictions it produced (the all-but-last-`K` prefix of
`p`, oldest first). -/
def admissionState (K : Nat) (p : List α) : BoundedFuturesUnordered α × List α :=
  (⟨p.reverse.take K, K⟩, p.take (p.length - K))

theorem take_append_le : ∀ (u : List α) (n : Nat), n ≤ u.length → ∀ w : List α,
    (u ++ w).take n = u.take n := by
  intro u
  induction u with
  | nil =>
    intro n h w
    simp only [List.length_nil, Nat.le_zero] at h
    simp [h]
  | cons a u ih =>
    intro n h w
    cases n with
    | zero => simp
    | succ m =>
      simp only [List.cons_append, List.take_succ_cons]
      rw [ih m (by simpa using h) w]

theorem take_append_add : ∀ (u w : List α) (n : Nat),
    (u ++ w).take (u.length + n) = u ++ w.take n := by
  intro u
  induction u with
  | nil => intro w n; simp
  | cons a u ih =>
    intro w n
    simp only [List.cons_append, List.length_cons]
    rw [show u.length + 1 + n = (u.length + n) + 1 by omega, List.take_succ_cons, ih]

theorem pushTraceStep_admissionState (K : Nat) (hK : 1 ≤ K) (p : List α) (x : α) :
    pushTraceStep (admissionState K p) x = admissionState K (p ++ [x]) := by
  rcases Nat.lt_or_ge p.length K with hlt | hge
  · have htp : p.reverse.take K = p.reverse := List.take_of_length_le (by simp; omega)
    have hne : p.reverse.length ≠ K := by simp; omega
    simp only [pushTraceStep, admissionState, BoundedFuturesUnordered.push, htp]
    rw [if_neg hne, if_neg hne]
    have h1 : (p ++ [x]).reverse.take K = x :: p.reverse := by
      rw [List.reverse_append]
      simp only [List.reverse_singleton, List.singleton_append]
      rw [List.take_cons]
      · congr 1
        exact List.take_of_length_le (by simp; omega)
      · omega
    have h2 : (p ++ [x]).take ((p ++ [x]).length - K) = [] := by
      rw [show (p ++ [x]).length - K = 0 by simp; omega, List.take_zero]
    have h3 : p.take (p.length - K) = [] := by
      rw [show p.length - K = 0 by omega, List.take_zero]
    rw [h1, h2, h3]
    simp [futuresUnorderedPush]
  · -- at capacity: decompose p = u ++ v with |v| = K
    have hlen : (p.reverse.take K).length = K := by simp; omega
    set u := p.take (p.length - K) with hu
    set v := p.drop (p.length - K) with hv
    have hp : p = u ++ v := (List.take_append_drop _ p).symm
    have hvlen : v.length = K := by
      rw [hv, List.length_drop]
      omega
    have hulen : u.length = p.length - K := by
      rw [hu, List.length_take]
      omega
    have hqueue : p.reverse.take K = v.reverse := by
      conv_lhs => rw [hp]
      rw [List.reverse_append]
      exact List.take_left' (by simp [hvlen])
    have htail : v.tail.reverse = v.reverse.dropLast := by
      have h2 := List.tail_reverse v.reverse
      rw [List.reverse_reverse] at h2
      rw [h2, List.reverse_reverse]
    have hfold : ((p.reverse.take K).reverse.drop 1).foldl
        (fun acc f => futuresUnorderedPush f acc) [] = v.reverse.dropLast := by
      rw [hqueue, List.reverse_reverse, List.drop_one, foldl_futuresUnorderedPush,
        List.append_nil, htail]
    have hrq : (p ++ [x]).reverse.take K = x :: v.reverse.dropLast := by
      rw [List.reverse_append]
      simp only [List.reverse_singleton, List.singleton_append]
      rw [List.take_cons (by omega : 0 < K)]
      congr 1
      conv_lhs => rw [hp]
      rw [List.reverse_append]
      rw [take_append_le v.reverse (K - 1) (by simp [hvlen]) u.reverse]
      rw [List.dropLast_eq_take, List.length_reverse, hvlen]
    have hrt : (p ++ [x]).take ((p ++ [x]).length - K) = u ++ v.take 1 := by
      have hidx : (p ++ [x]).length - K = u.length + 1 := by
        simp only [List.length_append, List.length_singleton]
        omega
      rw [hidx]
      conv_lhs => rw [hp, List.append_assoc]
      rw [take_append_add u (v ++ [x]) 1]
      congr 1
      exact take_append_le v 1 (by omega) [x]
    simp only [pushTraceStep, admissionState, BoundedFuturesUnordered.push]
    rw [if_pos hlen, if_pos hlen, hfold, hrq, hrt, hqueue, List.reverse_reverse]
    simp [futuresUnorderedPush]

theorem pushAllTrace_admissionState (K : Nat) (hK : 1 ≤ K) :
    ∀ (xs p : List α), BoundedFuturesUnordered.pushAllTrace (admissionState K p) xs
      = admissionState K (p ++ xs) := by
  intro xs
  induction xs with
  | nil => intro p; simp [BoundedFuturesUnordered.pushAllTrace]
  | cons x xs ih =>
    intro p
    simp only [BoundedFuturesUnordered.pushAllTrace, List.foldl_cons]
    rw [pushTraceStep_admissionState K hK p x]
    have h := ih (p ++ [x])
    simp only [BoundedFuturesUnordered.pushAllTrace] at h
    rw [h, List.append_assoc, List.singleton_append]

theorem pushAllTrace_fst (st : BoundedFuturesUnordered α × List α) (xs : List α) :
    (BoundedFuturesUnordered.pushAllTrace st xs).1
      = BoundedFuturesUnordered.pushAll st.1 xs := by
  induction xs generalizing st with
  | nil => rfl
  | cons x xs ih =>
    simp only [BoundedFuturesUnordered.pushAllTrace, BoundedFuturesUnordered.pushAll,
      List.foldl_cons]
    exact ih (pushTraceStep st x)

/-- C1: the admission queue (`BoundedFuturesUnordered` with capacity `K`, the
structure the spec's eviction policy describes): after any sequence of
admissions starting empty, the queue holds at most `K` pending operations and
retains exactly the `K` most-recently-admitted ones (newest first); each push
at capacity discards exactly the oldest entry, and the elements evicted over
the whole sequence are the all-but-last-`K` admissions, oldest first — so
admitting `K+1` connections evicts exactly the 1st, and two further
admissions evict the 2nd and then the 3rd, the rest remaining in the pending
set from which `next_ready()`/polling delivers completions. -/
theorem admission_queue_eviction (α : Type) (K : Nat) (hK : 1 ≤ K) (xs : List α) :
    (BoundedFuturesUnordered.pushAll ⟨[], K⟩ xs).pending = xs.reverse.take K
    ∧ (BoundedFuturesUnordered.pushAll ⟨[], K⟩ xs).pending.length ≤ K
    ∧ (BoundedFuturesUnordered.pushAllTrace (⟨[], K⟩, []) xs).2
        = xs.take (xs.length - K)
    ∧ (∀ (q : List α) (x : α), q.length = K →
        (BoundedFuturesUnordered.push ⟨q, K⟩ x).pending = x :: q.dropLast) := by
  have hmain := pushAllTrace_admissionState K hK xs []
  have hzero : admissionState K ([] : List α) = (⟨[], K⟩, []) := by
    simp [admissionState]
  rw [hzero, List.nil_append] at hmain
  have hfst := pushAllTrace_fst ((⟨[], K⟩ : BoundedFuturesUnordered α), []) xs
  have hqueue : (BoundedFuturesUnordered.pushAll ⟨[], K⟩ xs).pending
      = xs.reverse.take K := by
    rw [← hfst, hmain]
    rfl
  refine ⟨hqueue, ?_, ?_, ?_⟩
  · rw [hqueue]
    simp only [List.length_take, List.length_reverse]
    exact Nat.min_le_left _ _
  · rw [hmain]
    rfl
  · intro q x hq
    simp only [BoundedFuturesUnordered.push]
    rw [if_pos hq, foldl_futuresUnorderedPush, List.append_nil, List.drop_one,
      List.tail_reverse, List.reverse_reverse]
    rfl

/-- Witness for `admission_queue_eviction` at capacity 2 with five admissions
(the shape of the repository's `ordering` unit test): the queue retains the
4th and 5th, having evicted the 1st, 2nd and 3rd in that order. -/
theorem admission_queue_eviction_witness :
    (BoundedFuturesUnordered.pushAll (⟨[], 2⟩ : BoundedFuturesUnordered Nat)
        [1, 2, 3, 4, 5]).pending = [5, 4]
    ∧ (BoundedFuturesUnordered.pushAllTrace
        ((⟨[], 2⟩ : BoundedFuturesUnordered Nat), []) [1, 2, 3, 4, 5]).2
        = [1, 2, 3] := by
  have h := admission_queue_eviction Nat 2 (by decide) [1, 2, 3, 4, 5]
  exact ⟨h.1.trans (by decide), h.2.2.1.trans (by decide)⟩

/-! ## response.rs: the response writer -/

/-- `Response` from src/response.rs: `Menu` (its items), `File` (the file's
byte stream, modelled by the bytes it yields) and `Error` (the message). -/
inductive Response
  | Menu (items : List MenuItem)
  | File (contents : List Nat)
  | Error (msg : List Nat)
  deriving DecidableEq

/-- `"I/O error"`. -/
def ioErrorTextBytes : List Nat := [73, 47, 79, 32, 101, 114, 114, 111, 114]

/-- The fixed bytes `"\terror\terror.host\t1\r\n.\r\n"` written after an
`Error` message (src/response.rs:68). -/
def errorResponseTail : List Nat :=
  [9, 101, 114, 114, 111, 114, 9] ++ errorHostBytes ++ [9, 49, 13, 10, 46, 13, 10]

/-- `Response::write` (src/response.rs:54-72), as the bytes put on the wire: a
`Menu` is each item encoded (the private `MenuItemEncoder` in response.rs is
byte-for-byte the encoder of menu.rs) followed by the `.\r\n` terminator; a
`File` is copied verbatim; an `Error` is the Error type byte, the message and
the fixed placeholder fields plus terminator. Transport failures of the sink
are outside this model. -/
def Response.write : Response → List Nat
  | .Menu items => (items.map menuItemEncode).flatten ++ [46, 13, 10]
  | .File contents => contents
  | .Error msg => [ItemType.into_u8 .Error] ++ msg ++ errorResponseTail

/-- A `std::io::Error` as observed by the program: `detail` stands for its
`Debug`/`Display` rendering, which embeds the OS error message or path text. -/
structure IoError where
  detail : List Nat
  deriving DecidableEq

/-- Modelled from the spec: the `From<io::Error> for Response` conversion
applied at `e.into()` (src/main.rs:112 and 167) — the impl itself is not
under src/, only its callers are. Spec §4.4: "Any I/O failure encountered
while constructing a Response from an internal source (e.g., local file
access) must be converted to a generic `ErrorMessage("I/O error")` before
reaching the writer — the underlying failure detail must never be copied into
wire output." -/
def responseFromIoError (_e : IoError) : Response := .Error ioErrorTextBytes

/-- `"Bad request: "`. -/
def badRequestPrefix : List Nat :=
  [66, 97, 100, 32, 114, 101, 113, 117, 101, 115, 116, 58, 32]

/-- The derived `Debug` rendering of `RequestError::Io(e)`: `"Io(" ++ e ++ ")"`
with `e` the inner `std::io::Error`'s own Debug text (which contains the OS
error message). -/
def ioDebug (e : IoError) : List Nat := [73, 111, 40] ++ e.detail ++ [41]

/-- `Response::Error(format!("Bad request: {e:?}"))` (src/main.rs:226), the
response built when reading the request itself failed — e.g. with
`e = RequestError::Io(..)`, a transport-level I/O failure. -/
def badRequestResponse (debugText : List Nat) : Response :=
  .Error (badRequestPrefix ++ debugText)

/-- Rust `str::contains` on byte lists: `pat` occurs as a contiguous
subsequence. -/
def containsSub (pat : List Nat) : List Nat → Bool
  | [] => List.isPrefixOf pat []
  | c :: rest => List.isPrefixOf pat (c :: rest) || containsSub pat rest

end Gofer

namespace Gofer

/-- C7 counterexample: a request-read I/O failure is echoed verbatim. When
reading the request fails with `RequestError::Io(e)`, main.rs:226 builds
`ErrorMessage("Bad request: Io(<debug of e>)")`, whose serialized bytes
contain the failure's literal detail text (here `"/tmp/x"`), and varying the
detail changes the bytes sent to the peer. -/
theorem io_error_detail_leak_counterexample :
    containsSub [47, 116, 109, 112, 47, 120]
      (Response.write (badRequestResponse (ioDebug ⟨[47, 116, 109, 112, 47, 120]⟩))) = true
    ∧ Response.write (badRequestResponse (ioDebug ⟨[97]⟩))
      ≠ Response.write (badRequestResponse (ioDebug ⟨[98]⟩)) := by
  decide

/-- C7 (amended): for every *internal* I/O failure (local file access during
response construction, converted by the spec-modelled `From<io::Error> for
Response`), the serialized ErrorMessage is the fixed generic `"I/O error"`
line: varying the failure's detail text does not change the bytes sent to the
peer. (Request-*read* I/O failures, by contrast, are echoed in a
`"Bad request: ..."` diagnostic — see the counterexample.) -/
theorem io_error_response_generic :
    (∀ e1 e2 : IoError,
      Response.write (responseFromIoError e1) = Response.write (responseFromIoError e2))
    ∧ (∀ e : IoError, Response.write (responseFromIoError e)
        = [51] ++ ioErrorTextBytes ++ errorResponseTail) :=
  ⟨fun _ _ => rfl, fun _ => rfl⟩

/-! ## main.rs: request routing and menu-item filling -/

/-- `"directory traversal denied"`. -/
def traversalDeniedBytes : List Nat :=
  [100, 105, 114, 101, 99, 116, 111, 114, 121, 32, 116, 114, 97, 118, 101, 114,
   115, 97, 108, 32, 100, 101, 110, 105, 101, 100]

/-- `"not found"`. -/
def notFoundBytes : List Nat := [110, 111, 116, 32, 102, 111, 117, 110, 100]

/-- The filesystem path `handle_request` resolves a selector to. -/
inductive RoutedPath
  | rootDir
  | joined (rel : List Nat)
  deriving DecidableEq

/-- What the selector-dispatch prefix of `handle_request` (src/main.rs:43-65)
decides before any filesystem access: serve a compatibility page (the HTML
template text of `html_redirect`/`http_response` is elided, only the embedded
URL payload is kept), reject with an error message, or resolve a path against
the document root via `fs::lookup`. -/
inductive Route
  | path (p : RoutedPath)
  | rawRedirect (url : List Nat)
  | rawHttp (urlPath : List Nat)
  | err (msg : List Nat)
  deriving DecidableEq

/-- The routing decisions of `handle_request` (src/main.rs:43-65), in source
order: empty selector ⇒ document root; `URL:` prefix ⇒ redirect page;
`GET ... HTTP/1.x` ⇒ HTTP compatibility page; leading `/` ⇒ traversal check
then path join; anything else ⇒ "not found". -/
def handle_request_route (selector : List Nat) : Route :=
  if selector = [] then .path .rootDir
  else if List.isPrefixOf [85, 82, 76, 58] selector then
    .rawRedirect (selector.drop 4)
  else if List.isPrefixOf [71, 69, 84, 32] selector
      && (List.isSuffixOf [32, 72, 84, 84, 80, 47, 49, 46, 49] selector
          || List.isSuffixOf [32, 72, 84, 84, 80, 47, 49, 46, 48] selector) then
    .rawHttp ((selector.take (selector.length - 9)).drop 4)
  else if selector.head? = some 47 then
    if selector = [47, 46, 46] ∨ containsSub [47, 46, 46, 47] selector = true
        ∨ containsSub [47, 47] selector = true then
      .err traversalDeniedBytes
    else .path (.joined (selector.drop 1))
  else .err notFoundBytes

/-- C9: every selector that starts with `/` and is exactly `/..`, or contains
`/../`, or contains `//`, is answered with the ErrorMessage
"directory traversal denied" and is never resolved against the document
root. -/
theorem handle_request_traversal_denied (selector : List Nat)
    (hslash : selector.head? = some 47)
    (htrav : selector = [47, 46, 46] ∨ containsSub [47, 46, 46, 47] selector = true
      ∨ containsSub [47, 47] selector = true) :
    handle_request_route selector = .err traversalDeniedBytes := by
  obtain ⟨s2, rfl⟩ : ∃ s2, selector = 47 :: s2 := by
    cases selector with
    | nil => simp at hslash
    | cons a s2 =>
      simp only [List.head?_cons, Option.some.injEq] at hslash
      exact ⟨s2, by rw [hslash]⟩
  rw [handle_request_route, if_neg (by simp), if_neg (by simp [List.isPrefixOf]),
    if_neg (by simp [List.isPrefixOf]), if_pos hslash, if_pos htrav]

/-- Witness for `handle_request_traversal_denied` on the selector `/a/../b`
from the spec's own scenario list. -/
theorem handle_request_traversal_denied_witness :
    handle_request_route [47, 97, 47, 46, 46, 47, 98] = .err traversalDeniedBytes :=
  handle_request_traversal_denied [47, 97, 47, 46, 46, 47, 98] (by decide)
    (by decide)

/-- The host/port filling applied to decoded menu-file items
(src/main.rs:83-97): items other than Info/Error get absent fields filled —
both absent: configured hostname and configured port (its decimal rendering
`portString`); host present, port absent: the literal `"70"`; port present,
host absent: the configured hostname. -/
def fillMenuItem (hostname portString : List Nat) (item : MenuItem) : MenuItem :=
  if item.typ ≠ ItemType.Info ∧ item.typ ≠ ItemType.Error then
    if item.port.isNone then
      if item.host.isNone then
        { item with host := some hostname, port := some portString }
      else
        { item with port := some [55, 48] }
    else if item.host.isNone then
      { item with host := some hostname }
    else item
  else item

/-- C10: for decoded menu-file items that are neither Info nor Error: both
host and port absent ⇒ filled with the configured hostname and configured
port; host present and port absent ⇒ port becomes the literal `"70"`
regardless of the configured port; port present and host absent ⇒ only the
host is filled; Info and Error items are never modified. -/
theorem menu_item_host_port_fill (hostname portString : List Nat) (item : MenuItem) :
    (item.typ ≠ .Info → item.typ ≠ .Error → item.host = none → item.port = none →
      fillMenuItem hostname portString item
        = { item with host := some hostname, port := some portString })
    ∧ (∀ h, item.typ ≠ .Info → item.typ ≠ .Error → item.host = some h →
        item.port = none →
      fillMenuItem hostname portString item = { item with port := some [55, 48] })
    ∧ (∀ p, item.typ ≠ .Info → item.typ ≠ .Error → item.port = some p →
        item.host = none →
      fillMenuItem hostname portString item = { item with host := some hostname })
    ∧ ((item.typ = .Info ∨ item.typ = .Error) →
      fillMenuItem hostname portString item = item) := by
  refine ⟨?_, ?_, ?_, ?_⟩
  · intro h1 h2 hh hp
    rw [fillMenuItem, if_pos ⟨h1, h2⟩, hp, hh]
    rfl
  · intro h h1 h2 hh hp
    rw [fillMenuItem, if_pos ⟨h1, h2⟩, hp, hh]
    rfl
  · intro p h1 h2 hp hh
    rw [fillMenuItem, if_pos ⟨h1, h2⟩, hp, hh]
    rfl
  · intro h
    rw [fillMenuItem, if_neg (by
      rcases h with h | h <;> simp [h])]

/-- Witness for `menu_item_host_port_fill`: the spec's scenario — the menu
source line `1My Dir\t/mydir` (host and port omitted) with configured hostname
`host.example` and port `70` is filled with exactly those. -/
theorem menu_item_host_port_fill_witness :
    fillMenuItem [104, 111, 115, 116, 46, 101, 120, 97, 109, 112, 108, 101] [55, 48]
        ⟨.Directory, [77, 121, 32, 68, 105, 114], [47, 109, 121, 100, 105, 114],
          none, none⟩
      = ⟨.Directory, [77, 121, 32, 68, 105, 114], [47, 109, 121, 100, 105, 114],
          some [104, 111, 115, 116, 46, 101, 120, 97, 109, 112, 108, 101],
          some [55, 48]⟩ :=
  (menu_item_host_port_fill [104, 111, 115, 116, 46, 101, 120, 97, 109, 112, 108, 101]
      [55, 48] ⟨.Directory, [77, 121, 32, 68, 105, 114], [47, 109, 121, 100, 105, 114],
        none, none⟩).1
    (by decide) (by decide) rfl rfl

end Gofer
